import Mathlib

/-!
Verification of the code-prompt-core scan-and-reconcile cache engine and
filter engine, as a shallow embedding of the Go sources.

Conventions of the embedding:
- machine integers (int64, int) are modelled as Int or Nat;
- time.Time values are modelled as Int (nanoseconds since epoch, already
  normalized to UTC), so Equal on time.Time is plain equality;
- fallible operations return Except String / Option;
- compiled regular expressions (an external library) are modelled as their
  matching functions, of type String → Bool, and the external regexp
  compiler is a parameter of type String → Option (String → Bool);
- the SHA-256 hex digest (an external library) is modelled as an injective
  encoding of the raw byte list;
- SQL tables are modelled as association lists keyed by the column that
  carries the uniqueness constraint.
-/

namespace CPC

/-! ## pkg/filter/filter.go -/

/-- A compiled regular expression is modelled by its matching function. -/
abbrev Matcher := String → Bool

/-- The Filter value object of pkg/filter/filter.go: two pattern lists and a
priority token. -/
structure Filter where
  Includes : List String
  Excludes : List String
  Priority : String

/-- MatchesAny from pkg/filter/filter.go: true iff some compiled pattern
matches the path. -/
def MatchesAny (path : String) (patterns : List Matcher) : Bool :=
  patterns.any (fun re => re path)

/-- The pattern-compilation loops of GetFilteredFilePaths: empty-string
patterns are skipped with continue; a pattern the regexp compiler rejects
aborts compilation with an error naming the pattern; compiled patterns are
appended in order.  `rc` models regexp.Compile, `label` the includes or
excludes wording of the error message. -/
def compilePatterns (rc : String → Option Matcher) (label : String) :
    List String → Except String (List Matcher)
  | [] => Except.ok []
  | p :: rest =>
    if p = "" then compilePatterns rc label rest
    else
      match rc p with
      | none => Except.error ("invalid " ++ label ++ " regex pattern " ++ p)
      | some re => (compilePatterns rc label rest).map (fun l => re :: l)

/-- The per-path verdict of GetFilteredFilePaths (its loop body), over the
compiled lists. -/
def shouldAdd (includesRegex excludesRegex : List Matcher)
    (priority : String) (path : String) : Bool :=
  let matchInclude := includesRegex.isEmpty || MatchesAny path includesRegex
  let matchExclude := !excludesRegex.isEmpty && MatchesAny path excludesRegex
  if matchInclude && matchExclude then priority != "excludes"
  else if matchInclude then true
  else if matchExclude then false
  else includesRegex.isEmpty

/-- GetFilteredFilePaths from pkg/filter/filter.go, with the database read
replaced by the list of relative paths the query returns. -/
def GetFilteredFilePaths (rc : String → Option Matcher)
    (rows : List String) (filter : Filter) : Except String (List String) := do
  let includesRegex ← compilePatterns rc "includes" filter.Includes
  let excludesRegex ← compilePatterns rc "excludes" filter.Excludes
  Except.ok (rows.filter (shouldAdd includesRegex excludesRegex filter.Priority))

/-! ## pkg/scanner/scanner.go -/

/-- FileMetadata from pkg/scanner/scanner.go.  SizeBytes is int64, modelled
as Int; LastModTime is the UTC-normalized time.Time, modelled as Int. -/
structure FileMetadata where
  RelativePath : String
  Filename : String
  Extension : String
  SizeBytes : Int
  LineCount : Nat
  IsText : Bool
  LastModTime : Int
  ContentHash : String
deriving DecidableEq, Repr

/-- The Go zero value of FileMetadata, returned by processFile to signal a
skipped binary file. -/
def FileMetadata.zero : FileMetadata :=
  { RelativePath := "", Filename := "", Extension := "", SizeBytes := 0,
    LineCount := 0, IsText := false, LastModTime := 0, ContentHash := "" }

instance : Inhabited FileMetadata := ⟨FileMetadata.zero⟩

/-- ScanOptions from pkg/scanner/scanner.go. -/
structure ScanOptions where
  NoGitIgnores : Bool
  IncludeBinary : Bool
  NoPresetExcludes : Bool
deriving DecidableEq, Repr

/-- The observable behavior of one on-disk file, as seen by processFile:
whether d.Info, os.Open and the Seek/io.Copy/line-count I/O of processFile
succeed, plus the raw bytes, the stat size and the stat modification time. -/
structure FileInput where
  name : String
  statOk : Bool
  openOk : Bool
  readOk : Bool
  content : List Nat
  size : Int
  modTime : Int
deriving DecidableEq, Repr

/-- Models the hex-encoded SHA-256 digest of the raw bytes: an injective
encoding of the byte list (the idealization that the digest is
collision-free). -/
def hashHex (content : List Nat) : String :=
  content.foldr (fun b acc => toString b ++ "." ++ acc) ""

/-- Line counting with bufio.Scanner over the whole file: the number of
newline-delimited lines, where a final fragment not ended by a newline still
counts as a line. -/
def countLines (content : List Nat) : Nat :=
  if content = [] then 0
  else content.count 10 + (if content.getLast? = some 10 then 0 else 1)

/-- filepath.Ext of a base name, with the leading dot stripped as in
processFile step 4 (empty when the name has no dot): the suffix after the
last dot, implemented over the character list. -/
def extOf (name : String) : String :=
  if name.toList.contains (Char.ofNat 46) then
    String.mk ((name.toList.reverse.takeWhile
      (fun c => c != Char.ofNat 46)).reverse)
  else ""

/-- processFile from pkg/scanner/scanner.go: open the file (error aborts this
file), classify text vs binary by a NUL byte in the first 512 bytes, skip a
binary file by returning the zero FileMetadata when binaries are not
requested, then hash, count lines for text files and assemble the record.
The Seek/io.Copy/line-count I/O failures are modelled collectively by
readOk. -/
def processFile (relPath : String) (inp : FileInput) (options : ScanOptions) :
    Except String FileMetadata :=
  if !inp.openOk then Except.error ("open failed: " ++ relPath)
  else
    let isText := !((inp.content.take 512).contains 0)
    if !isText && !options.IncludeBinary then Except.ok FileMetadata.zero
    else if !inp.readOk then Except.error ("read failed: " ++ relPath)
    else Except.ok
      { RelativePath := relPath, Filename := inp.name,
        Extension := extOf inp.name, SizeBytes := inp.size,
        LineCount := if isText then countLines inp.content else 0,
        IsText := isText, LastModTime := inp.modTime,
        ContentHash := hashHex inp.content }

/-- A node of the project directory tree: a file entry (with its regularity
flag and observable I/O behavior) or a directory (with the flag telling
whether WalkDir can read it). -/
inductive FSNode where
  | file (name : String) (regular : Bool) (input : FileInput)
  | dir (name : String) (readable : Bool) (children : List FSNode)
deriving Repr

/-- The presetExclusions set of pkg/scanner/scanner.go. -/
def presetExclusions : List String :=
  ["node_modules", "venv", ".venv", "__pycache__", ".pytest_cache", ".tox",
   "build", "dist", ".egg-info", "target", "vendor", ".gradle", ".idea",
   ".vscode", ".git"]

/-- Relative-path formation during the walk (filepath.Rel along the tree). -/
def joinPath (pre name : String) : String :=
  if pre = "" then name else pre ++ "/" ++ name

/-- Whether the optional gitignore matcher matches a relative path (a nil
matcher matches nothing). -/
def ignoreMatches (matcher : Option Matcher) (rel : String) : Bool :=
  match matcher with
  | some m => m rel
  | none => false

mutual

/-- The WalkDir callback of ScanProject on one entry: a directory whose name
is preset-excluded (unless disabled) or that the gitignore matcher matches is
pruned with its subtree; an unreadable directory aborts the walk with an
error; a non-regular or gitignore-matched file is omitted; every other file
is collected with its walk-time relative path. -/
def walkNode (matcher : Option Matcher) (options : ScanOptions)
    (pre : String) : FSNode → Except String (List (String × FileInput))
  | FSNode.file name regular inp =>
    let rel := joinPath pre name
    if !regular || ignoreMatches matcher rel then Except.ok []
    else Except.ok [(rel, inp)]
  | FSNode.dir name readable children =>
    let rel := joinPath pre name
    if !options.NoPresetExcludes && presetExclusions.contains name then
      Except.ok []
    else if ignoreMatches matcher rel then Except.ok []
    else if !readable then Except.error ("walk error reading " ++ rel)
    else walkNodes matcher options rel children

/-- The walk over a list of sibling entries, in order, aborting at the first
walk-level error. -/
def walkNodes (matcher : Option Matcher) (options : ScanOptions)
    (pre : String) : List FSNode → Except String (List (String × FileInput))
  | [] => Except.ok []
  | n :: rest => do
    let a ← walkNode matcher options pre n
    let b ← walkNodes matcher options pre rest
    Except.ok (a ++ b)

end

/-- The pathPool body of ScanProject: a file whose d.Info call fails is
dropped silently (the worker returns before submitting); every other file is
submitted to the result pool as a processFile task. -/
def collectResults (files : List (String × FileInput)) (options : ScanOptions) :
    List (Except String FileMetadata) :=
  (files.filter (fun pf => pf.2.statOk)).map
    (fun pf => processFile pf.1 pf.2 options)

/-- The aggregated error of the result pool: the first task error, none when
every task succeeded (the conc pool joins all task errors; the model keeps
the first). -/
def firstError : List (Except String FileMetadata) → Option String
  | [] => none
  | Except.error e :: _ => some e
  | Except.ok _ :: rest => firstError rest

/-- The successful results of the pool, in submission order. -/
def okResults (results : List (Except String FileMetadata)) :
    List FileMetadata :=
  results.filterMap (fun r => match r with
    | Except.ok m => some m
    | Except.error _ => none)

/-- The body of ScanProject after the ignore matcher is fixed: an unreadable
project root fails the walk; a walk error is returned first; then the pool
error; otherwise the results whose RelativePath is nonempty (the zero records
of skipped binaries are filtered out). -/
def scanCore (matcher : Option Matcher) (options : ScanOptions)
    (rootReadable : Bool) (root : List FSNode) :
    Except String (List FileMetadata) :=
  if !rootReadable then Except.error "walk error reading project root"
  else
    match walkNodes matcher options "" root with
    | Except.error e => Except.error e
    | Except.ok files =>
      let results := collectResults files options
      match firstError results with
      | some e => Except.error e
      | none =>
        Except.ok ((okResults results).filter (fun m => m.RelativePath != ""))

/-- ScanProject from pkg/scanner/scanner.go.  `gitignoreLoad` is the outcome
of gitignore.CompileIgnoreFile at the project root (skipped entirely when
NoGitIgnores is set); the source discards its error value with a blank
identifier, so only the Option part of the outcome is consulted. -/
def ScanProject (rootReadable : Bool) (root : List FSNode)
    (gitignoreLoad : Except String Matcher) (options : ScanOptions) :
    Except String (List FileMetadata) :=
  let ignoreMatcher : Option Matcher :=
    if options.NoGitIgnores then none else gitignoreLoad.toOption
  scanCore ignoreMatcher options rootReadable root

/-! ## cmd/cache.go -/

/-- dbFileInfo from runIncrementalScan: the staleness key stored per path. -/
structure DbFileInfo where
  ModTime : Int
  Hash : String
deriving DecidableEq, Repr

/-- The staleness test of runIncrementalScan line 136: a live file differs
from its stored record when the modification time or the content hash
differs. -/
def staleNe (f : FileMetadata) (i : DbFileInfo) : Bool :=
  f.LastModTime != i.ModTime || f.ContentHash != i.Hash

/-- The reconciliation loop of runIncrementalScan: toInsert collects live
files whose path is absent from the snapshot, toUpdate live files present
with a differing staleness key, toDelete snapshot paths absent from the live
set, each in iteration order. -/
def reconcile (dbFiles : List (String × DbFileInfo))
    (localFiles : List FileMetadata) :
    List FileMetadata × List FileMetadata × List String :=
  let toInsert := localFiles.filter
    (fun f => (dbFiles.lookup f.RelativePath).isNone)
  let toUpdate := localFiles.filter (fun f =>
    match dbFiles.lookup f.RelativePath with
    | none => false
    | some i => staleNe f i)
  let toDelete := (dbFiles.map Prod.fst).filter
    (fun p => localFiles.all (fun f => f.RelativePath != p))
  (toInsert, toUpdate, toDelete)

/-- The file_metadata table for one project, keyed by relative_path (the
schema enforces uniqueness of (project_id, relative_path)). -/
abbrev FileTable := List (String × FileMetadata)

/-- The persisted row of one scanned file (INSERT of batchInsert stores
every column). -/
def rowOf (f : FileMetadata) : String × FileMetadata := (f.RelativePath, f)

/-- The UPDATE statement of singleUpdate: it sets size_bytes, line_count,
is_text, last_mod_time and content_hash of the row whose relative_path
matches, leaving filename and extension as stored. -/
def overwriteRow (r f : FileMetadata) : FileMetadata :=
  { r with
    SizeBytes := f.SizeBytes
    LineCount := f.LineCount
    IsText := f.IsText
    LastModTime := f.LastModTime
    ContentHash := f.ContentHash }

/-- Effect of one singleUpdate statement on the table. -/
def applyUpdate (tbl : FileTable) (f : FileMetadata) : FileTable :=
  tbl.map (fun r => if r.1 = f.RelativePath then (r.1, overwriteRow r.2 f) else r)

/-- Effect of singleUpdate over the whole toUpdate list, in order. -/
def applyUpdates (tbl : FileTable) (files : List FileMetadata) : FileTable :=
  files.foldl applyUpdate tbl

/-- Effect of batchInsert: the rows are appended. -/
def applyInserts (tbl : FileTable) (files : List FileMetadata) : FileTable :=
  tbl ++ files.map rowOf

/-- Effect of batchDelete: every row whose relative_path is among the listed
paths is removed. -/
def applyDeletes (tbl : FileTable) (paths : List String) : FileTable :=
  tbl.filter (fun r => !paths.contains r.1)

/-- The three change-sets applied in the order of runIncrementalScan:
batchInsert, then singleUpdate, then batchDelete. -/
def applyChanges (tbl : FileTable) (toInsert toUpdate : List FileMetadata)
    (toDelete : List String) : FileTable :=
  applyDeletes (applyUpdates (applyInserts tbl toInsert) toUpdate) toDelete

/-- The persisted state of one project: its file_metadata rows and its
last_scan_timestamp column. -/
structure DBState where
  files : FileTable
  lastScan : String
deriving DecidableEq, Repr

/-- Fault injection for the fallible database statements of
runIncrementalScan: whether db.Begin fails, whether some statement of
batchInsert / singleUpdate / batchDelete fails, and whether tx.Commit
fails.  A phase that executes no statement cannot fail. -/
structure TxFaults where
  beginFails : Bool
  insertFails : Bool
  updateFails : Bool
  deleteFails : Bool
  commitFails : Bool
deriving DecidableEq, Repr

/-- The fault-free environment. -/
def TxFaults.none : TxFaults :=
  { beginFails := false, insertFails := false, updateFails := false,
    deleteFails := false, commitFails := false }

/-- Outcome reported by runIncrementalScan: the up-to-date short circuit,
the success report with its files_added / files_modified / files_deleted
counts, or a printError abort. -/
inductive ScanOutcome where
  | upToDate
  | updated (added modified deleted : Nat)
  | failed (msg : String)
deriving DecidableEq, Repr

/-- The staleness snapshot read at the start of runIncrementalScan: one
(relative_path, (last_mod_time, content_hash)) pair per stored row. -/
def snapshotOf (tbl : FileTable) : List (String × DbFileInfo) :=
  tbl.map (fun r => (r.1, { ModTime := r.2.LastModTime, Hash := r.2.ContentHash }))

/-- runIncrementalScan from cmd/cache.go, given the live scan result, a
fault environment for the database statements and the timestamp `now` the
success path would write.  When the three change-sets are empty the function
prints the up-to-date status and returns before opening a transaction and
before touching last_scan_timestamp.  Otherwise the writes become visible
only if no statement fails and the commit succeeds; any failure rolls the
transaction back, leaving the state unchanged.  last_scan_timestamp is
written only after the successful commit. -/
def runIncrementalScan (st : DBState) (localFiles : List FileMetadata)
    (faults : TxFaults) (now : String) : DBState × ScanOutcome :=
  let dbFiles := snapshotOf st.files
  let sets := reconcile dbFiles localFiles
  let toInsert := sets.1
  let toUpdate := sets.2.1
  let toDelete := sets.2.2
  if toInsert.isEmpty && toUpdate.isEmpty && toDelete.isEmpty then
    (st, ScanOutcome.upToDate)
  else if faults.beginFails then (st, ScanOutcome.failed "begin failed")
  else if !toInsert.isEmpty && faults.insertFails then
    (st, ScanOutcome.failed "batch insert failed")
  else if !toUpdate.isEmpty && faults.updateFails then
    (st, ScanOutcome.failed "update failed")
  else if !toDelete.isEmpty && faults.deleteFails then
    (st, ScanOutcome.failed "batch delete failed")
  else if faults.commitFails then
    (st, ScanOutcome.failed "transaction commit failed")
  else
    ({ files := applyChanges st.files toInsert toUpdate toDelete,
       lastScan := now },
     ScanOutcome.updated toInsert.length toUpdate.length toDelete.length)

/-! ### Batch chunking of batchInsert and batchDelete -/

/-- The slices files[i:end] taken by the chunking loops of batchInsert and
batchDelete for a positive batch size (the loop advances i by batchSize and
clamps end to the list length); returns [] when the batch size is 0, where
the real loop exits on its first iteration with an error (see insertLoop
and deleteLoop below). -/
def chunks (b : Nat) (l : List α) : List (List α) :=
  match l with
  | [] => []
  | x :: xs =>
    if b = 0 then []
    else ((x :: xs).take b) :: chunks b ((x :: xs).drop b)
termination_by l.length
decreasing_by
  rename_i hb
  simp only [List.length_drop, List.length_cons]
  omega

/-- The per-statement record batches executed by batchInsert. -/
def batchInsertBatches (b : Nat) (files : List FileMetadata) :
    List (List FileMetadata) :=
  chunks b files

/-- The per-statement path batches executed by batchDelete. -/
def batchDeleteBatches (b : Nat) (paths : List String) :
    List (List String) :=
  chunks b paths

/-- Outcome of one run of a chunking loop: the normal fall-through return
nil, an early return err from a failing tx.Exec, or a Go runtime panic. -/
inductive GoResult where
  | ok
  | err (msg : String)
  | panicked (msg : String)
deriving DecidableEq, Repr

/-- The chunking loop of batchInsert with every exit of its body made
explicit.  `execOk` is tx.Exec's outcome on a well-formed (nonempty-batch)
statement.  A negative batchSize makes the slice expression files[i:end]
panic on the first iteration (end < i, slice bounds out of range).  A
batchSize of 0 slices the empty batch files[i:i]; its statement joins zero
placeholders, so the SQL text ends in VALUES with no tuple and tx.Exec
returns a syntax error, which the loop body returns.  The loop variable is
a Go int that starts at 0 and grows only on the iterating path (where
batchSize is at least 1), so it is modelled as Nat. -/
def insertLoop (execOk : List FileMetadata → Bool)
    (files : List FileMetadata) (batchSize : Int) (i : Nat) : GoResult :=
  if _hguard : i < files.length then
    if batchSize < 0 then GoResult.panicked "slice bounds out of range"
    else
      if _hempty : ((files.drop i).take
          (min (i + batchSize.toNat) files.length - i)).isEmpty then
        GoResult.err "SQL logic error: incomplete input"
      else if execOk ((files.drop i).take
          (min (i + batchSize.toNat) files.length - i)) then
        insertLoop execOk files batchSize (i + batchSize.toNat)
      else GoResult.err "exec failed"
  else GoResult.ok
termination_by files.length - i
decreasing_by
  simp only [List.isEmpty_iff, List.take_eq_nil_iff, List.drop_eq_nil_iff,
    not_or] at _hempty
  omega

/-- The chunking loop of batchDelete with every exit of its body made
explicit.  As in insertLoop, a negative batchSize panics on the slice; a
batchSize of 0 gives an empty batch, and here the body panics even before
tx.Exec, in strings.Repeat of the placeholder text with count
len(batch)-1 = -1. -/
def deleteLoop (execOk : List String → Bool)
    (paths : List String) (batchSize : Int) (i : Nat) : GoResult :=
  if _hguard : i < paths.length then
    if batchSize < 0 then GoResult.panicked "slice bounds out of range"
    else
      if _hempty : ((paths.drop i).take
          (min (i + batchSize.toNat) paths.length - i)).isEmpty then
        GoResult.panicked "strings: negative Repeat count"
      else if execOk ((paths.drop i).take
          (min (i + batchSize.toNat) paths.length - i)) then
        deleteLoop execOk paths batchSize (i + batchSize.toNat)
      else GoResult.err "exec failed"
  else GoResult.ok
termination_by paths.length - i
decreasing_by
  simp only [List.isEmpty_iff, List.take_eq_nil_iff, List.drop_eq_nil_iff,
    not_or] at _hempty
  omega

/-- batchInsert from cmd/cache.go as a run of its chunking loop from i = 0
(the early return on an empty input coincides with the loop guard being
false at entry). -/
def batchInsertRun (execOk : List FileMetadata → Bool)
    (files : List FileMetadata) (batchSize : Int) : GoResult :=
  insertLoop execOk files batchSize 0

/-- batchDelete from cmd/cache.go as a run of its chunking loop from
i = 0. -/
def batchDeleteRun (execOk : List String → Bool)
    (paths : List String) (batchSize : Int) : GoResult :=
  deleteLoop execOk paths batchSize 0

/-! ### Project rows (cmd/cache.go, cmd/profiles.go, cmd/analyze.go) -/

/-- A row of the projects table. -/
structure ProjectRow where
  id : Int
  path : String
  lastScan : String
deriving DecidableEq, Repr

/-- The SELECT id FROM projects WHERE project_path = ? query. -/
def findProjectId (tbl : List ProjectRow) (projectPath : String) : Option Int :=
  (tbl.find? (fun r => r.path == projectPath)).map (fun r => r.id)

/-- getOrCreateProject from cmd/cache.go: look the path up; on
sql.ErrNoRows insert a fresh row whose last_scan_timestamp is the sentinel
string and return its id; otherwise return the found id, touching nothing. -/
def getOrCreateProject (tbl : List ProjectRow) (nextId : Int)
    (projectPath : String) : List ProjectRow × Int :=
  match findProjectId tbl projectPath with
  | some id => (tbl, id)
  | none => (tbl ++ [{ id := nextId, path := projectPath,
                       lastScan := "not_scanned_yet" }], nextId)

/-- The project-id lookup used by cmd/profiles.go and cmd/analyze.go (and
the other query commands): a bare SELECT whose failure, sql.ErrNoRows
included, aborts the command with printError, creating nothing. -/
def lookupProjectId (tbl : List ProjectRow) (projectPath : String) :
    Except String Int :=
  match findProjectId tbl projectPath with
  | some id => Except.ok id
  | none => Except.error "error finding project: sql: no rows in result set"

/-- A row of the profiles table, keyed by (project_id, profile_name). -/
abbrev ProfilesTable := List ((Int × String) × String)

/-- The upsert of profilesSaveCmd (INSERT ... ON CONFLICT(project_id,
profile_name) DO UPDATE SET profile_data_json). -/
def upsertProfile (tbl : ProfilesTable) (projectId : Int)
    (name data : String) : ProfilesTable :=
  if tbl.any (fun r => r.1 == (projectId, name)) then
    tbl.map (fun r => if r.1 == (projectId, name) then (r.1, data) else r)
  else tbl ++ [((projectId, name), data)]

/-- profilesSaveCmd from cmd/profiles.go, after flag validation: resolve the
project id with the bare lookup (aborting when the project row does not
exist), then upsert the profile.  The projects table is never written. -/
def profilesSave (projects : List ProjectRow) (profiles : ProfilesTable)
    (projectPath name data : String) : Except String ProfilesTable :=
  match lookupProjectId projects projectPath with
  | Except.error e => Except.error e
  | Except.ok id => Except.ok (upsertProfile profiles id name data)

/-! ## Spec-side derived notions used to state the claims -/

/-- The set of relative paths of a live scan result. -/
def scanKeys (l : List FileMetadata) : Finset String :=
  (l.map (fun f => f.RelativePath)).toFinset

/-- The set of relative paths stored in a file_metadata table. -/
def tableKeys (tbl : FileTable) : Finset String :=
  (tbl.map Prod.fst).toFinset

/-- The paths common to the snapshot and the live scan whose stored
staleness key (modification time, content hash) differs from the scanned
one. -/
def modifiedKeys (tbl : FileTable) (l : List FileMetadata) : Finset String :=
  (scanKeys l ∩ tableKeys tbl).filter (fun p =>
    l.any (fun f => f.RelativePath == p &&
      (match (snapshotOf tbl).lookup p with
       | some i => staleNe f i
       | none => false)) = true)

/-! ## Concrete sample inputs for witnesses and counterexamples -/

/-- A small FileMetadata literal (the fields the reconciliation never reads
are fixed). -/
def mkMeta (rel : String) (mt : Int) (hash : String) : FileMetadata :=
  { RelativePath := rel, Filename := rel, Extension := "go", SizeBytes := 1,
    LineCount := 1, IsText := true, LastModTime := mt, ContentHash := hash }

/-- The default scan options (no flag set). -/
def optsDefault : ScanOptions :=
  { NoGitIgnores := false, IncludeBinary := false, NoPresetExcludes := false }

/-- A healthy readable text file. -/
def inputGood : FileInput :=
  { name := "a.go", statOk := true, openOk := true, readOk := true,
    content := [112, 10], size := 2, modTime := 7 }

/-- A regular file whose os.Open call fails (for example permission
denied). -/
def inputOpenFails : FileInput :=
  { name := "b.go", statOk := true, openOk := false, readOk := true,
    content := [112, 10], size := 2, modTime := 7 }

/-- A regular file whose d.Info stat call fails. -/
def inputStatFails : FileInput :=
  { name := "c.go", statOk := false, openOk := true, readOk := true,
    content := [112, 10], size := 2, modTime := 7 }

/-! # Theorems -/

theorem matchesAny_iff (path : String) (l : List Matcher) :
    MatchesAny path l = true ↔ ∃ m ∈ l, m path = true := by
  simp [MatchesAny]

theorem matchesAny_false_iff (path : String) (l : List Matcher) :
    MatchesAny path l = false ↔ ∀ m ∈ l, m path = false := by
  rw [← Bool.not_eq_true, matchesAny_iff]
  push_neg
  simp

/-- Claim C2: the inclusion verdict of the filter engine follows the
decision table of the spec: matchInclude holds iff the compiled includes
list is empty or some include pattern matches; matchExclude holds iff the
compiled excludes list is nonempty and some exclude pattern matches; when
both hold the path is included iff the priority token is not the string
excludes; when exactly one holds it wins; when neither holds, inclusion is
equivalent to the compiled includes list being empty. -/
theorem filter_verdict_decision_table (inc exc : List Matcher)
    (prio path : String) :
    ((inc.isEmpty || MatchesAny path inc) = true ↔
        (inc = [] ∨ ∃ m ∈ inc, m path = true))
  ∧ ((!exc.isEmpty && MatchesAny path exc) = true ↔
        (exc ≠ [] ∧ ∃ m ∈ exc, m path = true))
  ∧ (((inc = [] ∨ ∃ m ∈ inc, m path = true) ∧
        (exc ≠ [] ∧ ∃ m ∈ exc, m path = true)) →
        (shouldAdd inc exc prio path = true ↔ prio ≠ "excludes"))
  ∧ (((inc = [] ∨ ∃ m ∈ inc, m path = true) ∧
        ¬(exc ≠ [] ∧ ∃ m ∈ exc, m path = true)) →
        shouldAdd inc exc prio path = true)
  ∧ ((¬(inc = [] ∨ ∃ m ∈ inc, m path = true) ∧
        (exc ≠ [] ∧ ∃ m ∈ exc, m path = true)) →
        shouldAdd inc exc prio path = false)
  ∧ ((¬(inc = [] ∨ ∃ m ∈ inc, m path = true) ∧
        ¬(exc ≠ [] ∧ ∃ m ∈ exc, m path = true)) →
        (shouldAdd inc exc prio path = true ↔ inc = [])) := by
  have hmi : (inc.isEmpty || MatchesAny path inc) = true ↔
      (inc = [] ∨ ∃ m ∈ inc, m path = true) := by
    simp [matchesAny_iff, List.isEmpty_iff]
  have hme : (!exc.isEmpty && MatchesAny path exc) = true ↔
      (exc ≠ [] ∧ ∃ m ∈ exc, m path = true) := by
    simp [matchesAny_iff, List.isEmpty_iff]
  refine ⟨hmi, hme, ?_, ?_, ?_, ?_⟩
  · rintro ⟨h1, h2⟩
    rw [← hmi] at h1
    rw [← hme] at h2
    have : shouldAdd inc exc prio path = (prio != "excludes") := by
      simp [shouldAdd, h1, h2]
    rw [this]
    simp [ne_eq]
  · rintro ⟨h1, h2⟩
    rw [← hmi] at h1
    rw [← hme, Bool.not_eq_true] at h2
    simp [shouldAdd, h1, h2]
  · rintro ⟨h1, h2⟩
    rw [← hmi, Bool.not_eq_true] at h1
    rw [← hme] at h2
    simp [shouldAdd, h1, h2]
  · rintro ⟨h1, h2⟩
    rw [← hmi, Bool.not_eq_true] at h1
    rw [← hme, Bool.not_eq_true] at h2
    have : shouldAdd inc exc prio path = inc.isEmpty := by
      simp [shouldAdd, h1, h2]
    rw [this, List.isEmpty_iff]

/-- Witness for `filter_verdict_decision_table`: with one include and one
exclude pattern both matching the path and priority token excludes, the
verdict is exclusion. -/
theorem filter_verdict_decision_table_witness :
    shouldAdd [fun p => p == "a.go"] [fun p => p == "a.go"] "excludes" "a.go"
      = false := by
  have hMI : ([fun p => p == "a.go"] : List Matcher) = [] ∨
      ∃ m ∈ ([fun p => p == "a.go"] : List Matcher), m "a.go" = true :=
    Or.inr ⟨fun p => p == "a.go", List.mem_singleton.mpr rfl, by simp⟩
  have hME : ([fun p => p == "a.go"] : List Matcher) ≠ [] ∧
      ∃ m ∈ ([fun p => p == "a.go"] : List Matcher), m "a.go" = true :=
    ⟨by simp, fun p => p == "a.go", List.mem_singleton.mpr rfl, by simp⟩
  have h := (filter_verdict_decision_table [fun p => p == "a.go"]
    [fun p => p == "a.go"] "excludes" "a.go").2.2.1 ⟨hMI, hME⟩
  cases hres : shouldAdd [fun p => p == "a.go"] [fun p => p == "a.go"]
      "excludes" "a.go"
  · rfl
  · exact absurd rfl (by rw [hres] at h; exact h.mp rfl)

/-- Claim C10: empty-string patterns are skipped during compilation, so they
never produce a compilation error and never take part in matching; since the
verdict is taken over the compiled lists, a Filter whose Includes list holds
only empty strings evaluates exactly like one with an empty Includes
list. -/
theorem empty_include_patterns_skipped (rc : String → Option Matcher)
    (pats : List String) (h : ∀ p ∈ pats, p = "") :
    compilePatterns rc "includes" pats = Except.ok []
  ∧ ∀ (rows : List String) (excl : List String) (prio : String),
      GetFilteredFilePaths rc rows
          { Includes := pats, Excludes := excl, Priority := prio } =
        GetFilteredFilePaths rc rows
          { Includes := [], Excludes := excl, Priority := prio } := by
  have hcomp : compilePatterns rc "includes" pats = Except.ok [] := by
    induction pats with
    | nil => rfl
    | cons p rest ih =>
      have hp : p = "" := h p (List.mem_cons_self p rest)
      have hrest : ∀ q ∈ rest, q = "" := fun q hq => h q (List.mem_cons_of_mem p hq)
      simp [compilePatterns, hp, ih hrest]
  refine ⟨hcomp, fun rows excl prio => ?_⟩
  simp [GetFilteredFilePaths, hcomp, compilePatterns]

/-- Witness for `empty_include_patterns_skipped`: a list of two empty
patterns compiles to the empty list even under a regexp compiler that
rejects every pattern. -/
theorem empty_include_patterns_skipped_witness :
    compilePatterns (fun _ => Option.none) "includes" ["", ""]
      = Except.ok [] :=
  (empty_include_patterns_skipped (fun _ => Option.none) ["", ""]
    (by intro p hp; rcases List.mem_cons.mp hp with h1 | h2
        · exact h1
        · simpa using h2)).1

/-- Claim C3: a live file whose path is in the snapshot is left out of both
change-sets (classified unchanged) exactly when its modification time and
its content hash both equal the stored values; in particular a differing
modification time alone puts it in toUpdate, even with an identical hash. -/
theorem reconcile_staleness_key (dbFiles : List (String × DbFileInfo))
    (l : List FileMetadata) (f : FileMetadata) (i : DbFileInfo)
    (hf : f ∈ l) (hl : dbFiles.lookup f.RelativePath = some i) :
    f ∉ (reconcile dbFiles l).1
  ∧ (f ∈ (reconcile dbFiles l).2.1 ↔
      ¬(f.LastModTime = i.ModTime ∧ f.ContentHash = i.Hash))
  ∧ (f.LastModTime ≠ i.ModTime → f ∈ (reconcile dbFiles l).2.1) := by
  have hstale : (match dbFiles.lookup f.RelativePath with
      | none => false
      | some i => staleNe f i) = staleNe f i := by rw [hl]
  refine ⟨?_, ?_, ?_⟩
  · intro hmem
    have := (List.mem_filter.mp hmem).2
    rw [hl] at this
    simp at this
  · rw [reconcile]
    simp only [List.mem_filter, hstale]
    constructor
    · rintro ⟨-, hne⟩
      simp only [staleNe, Bool.or_eq_true, bne_iff_ne] at hne
      tauto
    · intro hne
      refine ⟨hf, ?_⟩
      simp only [staleNe, Bool.or_eq_true, bne_iff_ne]
      tauto
  · intro hne
    rw [reconcile]
    simp only [List.mem_filter, hstale]
    refine ⟨hf, ?_⟩
    simp only [staleNe, Bool.or_eq_true, bne_iff_ne]
    exact Or.inl hne

/-- Witness for `reconcile_staleness_key`: a file touched (modification time
2 against stored 1) with identical content hash lands in toUpdate. -/
theorem reconcile_staleness_key_witness :
    mkMeta "a.go" 2 "h1" ∈
      (reconcile [("a.go", { ModTime := 1, Hash := "h1" })]
        [mkMeta "a.go" 2 "h1"]).2.1 :=
  (reconcile_staleness_key [("a.go", { ModTime := 1, Hash := "h1" })]
    [mkMeta "a.go" 2 "h1"] (mkMeta "a.go" 2 "h1")
    { ModTime := 1, Hash := "h1" }
    (List.mem_singleton.mpr rfl) (by rfl)).2.2 (by decide)

theorem chunks_join {α : Type} (b : Nat) (l : List α) (hb : b ≠ 0) :
    (chunks b l).flatten = l := by
  have hgen : ∀ (n : Nat) (l : List α), l.length = n → (chunks b l).flatten = l := by
    intro n
    induction n using Nat.strong_induction_on with
    | _ n ih =>
      intro l hn
      cases l with
      | nil => simp [chunks]
      | cons x xs =>
        rw [chunks]
        simp only [if_neg hb]
        rw [List.flatten]
        have hlen : ((x :: xs).drop b).length < n := by
          subst hn
          simp only [List.length_drop, List.length_cons]
          omega
        rw [ih _ hlen _ rfl]
        exact List.take_append_drop b (x :: xs)
  exact hgen l.length l rfl

theorem chunks_sizes {α : Type} (b : Nat) (l : List α) (hb : b ≠ 0) :
    ∀ c ∈ chunks b l, c.length ≤ b ∧ c ≠ [] := by
  have hgen : ∀ (n : Nat) (l : List α), l.length = n →
      ∀ c ∈ chunks b l, c.length ≤ b ∧ c ≠ [] := by
    intro n
    induction n using Nat.strong_induction_on with
    | _ n ih =>
      intro l hn
      cases l with
      | nil => simp [chunks]
      | cons x xs =>
        rw [chunks]
        simp only [if_neg hb]
        intro c hc
        rcases List.mem_cons.mp hc with hhead | htail
        · subst hhead
          constructor
          · exact List.length_take_le b (x :: xs)
          · simp [List.take_eq_nil_iff]
            omega
        · have hlen : ((x :: xs).drop b).length < n := by
            subst hn
            simp only [List.length_drop, List.length_cons]
            omega
          exact ih _ hlen _ rfl c htail
  exact hgen l.length l rfl

/-- Counterexample to claim C9: the chunking loops do terminate on a batch
size of 0 or less with a nonempty input — on the very first iteration.
With batchSize 0, batchInsert executes the malformed zero-tuple statement
and returns its error, and batchDelete panics in strings.Repeat with count
-1; with a negative batchSize both panic on the slice bounds.  This refutes
the claim that the loop never exits. -/
theorem batch_zero_terminates_counterexample :
    batchInsertRun (fun _ => true) [mkMeta "a" 1 "x"] 0
        = GoResult.err "SQL logic error: incomplete input"
  ∧ batchDeleteRun (fun _ => true) ["a"] 0
        = GoResult.panicked "strings: negative Repeat count"
  ∧ batchInsertRun (fun _ => true) [mkMeta "a" 1 "x"] (-1)
        = GoResult.panicked "slice bounds out of range"
  ∧ batchDeleteRun (fun _ => true) ["a"] (-1)
        = GoResult.panicked "slice bounds out of range" := by
  refine ⟨?_, ?_, ?_, ?_⟩
  · rw [batchInsertRun, insertLoop]
    simp
  · rw [batchDeleteRun, deleteLoop]
    simp
  · rw [batchInsertRun, insertLoop]
    simp
  · rw [batchDeleteRun, deleteLoop]
    simp

/-- Claim C9 as amended: for a batch size of at least 1 the chunking loops
of batchInsert and batchDelete terminate and partition their inputs: every
record and every path lands in exactly one executed statement (the
concatenation of the batches is the input list) and every statement covers
at most batchSize elements.  For a batch size of 0 or less on a nonempty
input the loops also terminate, but on their first iteration and never
successfully: batchSize 0 produces an empty batch, whose zero-tuple
statement makes tx.Exec return a syntax error in batchInsert and whose
strings.Repeat count of -1 panics in batchDelete, and a negative batchSize
panics on the slice bounds — so batchSize at least 1 remains a necessary
precondition for the batching to do its work, though not for
termination. -/
theorem batch_chunking_partition_and_exit (b : Nat) (hb : 1 ≤ b)
    (files : List FileMetadata) (paths : List String) :
    ((batchInsertBatches b files).flatten = files
      ∧ ∀ c ∈ batchInsertBatches b files, c.length ≤ b ∧ c ≠ [])
  ∧ ((batchDeleteBatches b paths).flatten = paths
      ∧ ∀ c ∈ batchDeleteBatches b paths, c.length ≤ b ∧ c ≠ [])
  ∧ (∀ (execOk : List FileMetadata → Bool) (fs : List FileMetadata),
      fs ≠ [] →
        batchInsertRun execOk fs 0 =
          GoResult.err "SQL logic error: incomplete input")
  ∧ (∀ (execOk : List String → Bool) (ps : List String),
      ps ≠ [] →
        batchDeleteRun execOk ps 0 =
          GoResult.panicked "strings: negative Repeat count")
  ∧ (∀ (execOk : List FileMetadata → Bool) (fs : List FileMetadata)
      (bz : Int), bz < 0 → fs ≠ [] →
        batchInsertRun execOk fs bz =
          GoResult.panicked "slice bounds out of range")
  ∧ (∀ (execOk : List String → Bool) (ps : List String)
      (bz : Int), bz < 0 → ps ≠ [] →
        batchDeleteRun execOk ps bz =
          GoResult.panicked "slice bounds out of range") := by
  have hb0 : b ≠ 0 := by omega
  refine ⟨⟨chunks_join b files hb0, chunks_sizes b files hb0⟩,
    ⟨chunks_join b paths hb0, chunks_sizes b paths hb0⟩, ?_, ?_, ?_, ?_⟩
  · intro execOk fs hne
    have hlen : 0 < fs.length := List.length_pos.mpr hne
    rw [batchInsertRun, insertLoop, dif_pos hlen]
    simp
  · intro execOk ps hne
    have hlen : 0 < ps.length := List.length_pos.mpr hne
    rw [batchDeleteRun, deleteLoop, dif_pos hlen]
    simp
  · intro execOk fs bz hbz hne
    have hlen : 0 < fs.length := List.length_pos.mpr hne
    rw [batchInsertRun, insertLoop, dif_pos hlen, if_pos hbz]
  · intro execOk ps bz hbz hne
    have hlen : 0 < ps.length := List.length_pos.mpr hne
    rw [batchDeleteRun, deleteLoop, dif_pos hlen, if_pos hbz]

/-- Witness for `batch_chunking_partition_and_exit`: batch size 2 over
three records executes two statements holding all three records, and batch
size 0 over one record exits with the syntax error of the zero-tuple
statement. -/
theorem batch_chunking_partition_and_exit_witness :
    (batchInsertBatches 2 [mkMeta "a" 1 "x", mkMeta "b" 1 "y",
      mkMeta "c" 1 "z"]).flatten =
      [mkMeta "a" 1 "x", mkMeta "b" 1 "y", mkMeta "c" 1 "z"]
  ∧ batchInsertRun (fun _ => false) [mkMeta "a" 1 "x"] 0
      = GoResult.err "SQL logic error: incomplete input" :=
  ⟨(batch_chunking_partition_and_exit 2 (by omega)
      [mkMeta "a" 1 "x", mkMeta "b" 1 "y", mkMeta "c" 1 "z"] ["a"]).1.1,
   (batch_chunking_partition_and_exit 2 (by omega)
      [mkMeta "a" 1 "x", mkMeta "b" 1 "y", mkMeta "c" 1 "z"] ["a"]).2.2.1
     (fun _ => false) [mkMeta "a" 1 "x"] (by simp)⟩

/-- Counterexample to claim C6: on a cache that is already up to date the
incremental refresh returns the state unchanged, so the last-scan timestamp
keeps its old value T1 and is not advanced to the current time T2, contrary
to the claim that the short-circuit path still advances it. -/
theorem upToDate_timestamp_counterexample :
    runIncrementalScan
        { files := [("a.go", mkMeta "a.go" 1 "h1")], lastScan := "T1" }
        [mkMeta "a.go" 1 "h1"] TxFaults.none "T2"
      = ({ files := [("a.go", mkMeta "a.go" 1 "h1")], lastScan := "T1" },
          ScanOutcome.upToDate)
  ∧ ("T1" : String) ≠ "T2" := by
  exact ⟨by decide, by decide⟩

/-- Claim C6 as amended: when the reconciliation produces three empty
change-sets, the refresh short-circuits before opening a transaction: it
writes nothing to the FileRecord table and leaves the last-scan timestamp
unchanged (it does not advance it), reporting the up-to-date status. -/
theorem upToDate_short_circuit (st : DBState) (l : List FileMetadata)
    (faults : TxFaults) (now : String)
    (h : reconcile (snapshotOf st.files) l = ([], [], [])) :
    runIncrementalScan st l faults now = (st, ScanOutcome.upToDate) := by
  simp only [runIncrementalScan, h]
  simp

/-- Witness for `upToDate_short_circuit`: the short circuit fires before any
fallible statement, so even an environment where every statement would fail
returns the unchanged state. -/
theorem upToDate_short_circuit_witness :
    runIncrementalScan
        { files := [("a.go", mkMeta "a.go" 1 "h1")], lastScan := "T1" }
        [mkMeta "a.go" 1 "h1"]
        { beginFails := true, insertFails := true, updateFails := true,
          deleteFails := true, commitFails := true } "T2"
      = ({ files := [("a.go", mkMeta "a.go" 1 "h1")], lastScan := "T1" },
          ScanOutcome.upToDate) :=
  upToDate_short_circuit _ _ _ _ (by decide)

/-- Claim C5: the three change-sets are applied atomically: whenever the
refresh reports a failure (a failing statement of batchInsert, singleUpdate
or batchDelete, a failing begin, or a failing commit), the persisted state
is returned exactly intact, timestamp included; the only other possibility
is the committed write, where all three change-sets are applied together and
the last-scan timestamp is advanced, after commit, to the new value. -/
theorem incremental_refresh_atomic (st : DBState) (l : List FileMetadata)
    (faults : TxFaults) (now : String) :
    (∀ msg, (runIncrementalScan st l faults now).2 = ScanOutcome.failed msg →
        (runIncrementalScan st l faults now).1 = st)
  ∧ ((runIncrementalScan st l faults now).1 = st
      ∨ ((runIncrementalScan st l faults now).1.files =
            applyChanges st.files (reconcile (snapshotOf st.files) l).1
              (reconcile (snapshotOf st.files) l).2.1
              (reconcile (snapshotOf st.files) l).2.2
          ∧ (runIncrementalScan st l faults now).1.lastScan = now
          ∧ (runIncrementalScan st l faults now).2 =
              ScanOutcome.updated
                (reconcile (snapshotOf st.files) l).1.length
                (reconcile (snapshotOf st.files) l).2.1.length
                (reconcile (snapshotOf st.files) l).2.2.length)) := by
  simp only [runIncrementalScan]
  split_ifs with h1 h2 h3 h4 h5 h6
  · exact ⟨fun _ _ => rfl, Or.inl rfl⟩
  · exact ⟨fun _ _ => rfl, Or.inl rfl⟩
  · exact ⟨fun _ _ => rfl, Or.inl rfl⟩
  · exact ⟨fun _ _ => rfl, Or.inl rfl⟩
  · exact ⟨fun _ _ => rfl, Or.inl rfl⟩
  · exact ⟨fun _ _ => rfl, Or.inl rfl⟩
  · exact ⟨fun msg h => by simp at h, Or.inr ⟨rfl, rfl, rfl⟩⟩

/-- Witness for `incremental_refresh_atomic`: with one pending insert and a
failing insert statement, the refresh leaves the empty snapshot and the
never-scanned timestamp intact. -/
theorem incremental_refresh_atomic_witness :
    (runIncrementalScan { files := [], lastScan := "not_scanned_yet" }
        [mkMeta "a.go" 1 "h1"]
        { beginFails := false, insertFails := true, updateFails := false,
          deleteFails := false, commitFails := false } "T2").1
      = { files := [], lastScan := "not_scanned_yet" } :=
  (incremental_refresh_atomic
      { files := [], lastScan := "not_scanned_yet" } [mkMeta "a.go" 1 "h1"]
      { beginFails := false, insertFails := true, updateFails := false,
        deleteFails := false, commitFails := false } "T2").1
    "batch insert failed" (by decide)

/-- Counterexample to claim C7: with an I/O error reading .gitignore that is
not file-does-not-exist (a permission error), ScanProject does not fail: the
error is discarded and the scan succeeds over the project files. -/
theorem gitignore_error_counterexample :
    ScanProject true [FSNode.file "a.go" true inputGood]
        (Except.error "open .gitignore: permission denied") optsDefault
      = Except.ok
          [{ RelativePath := "a.go", Filename := "a.go", Extension := "go",
             SizeBytes := 2, LineCount := 1, IsText := true,
             LastModTime := 7, ContentHash := "112.10." }] := by
  rfl

/-- Claim C7 as amended: every failure of gitignore.CompileIgnoreFile — the
file being absent, malformed, or any other I/O error — is discarded by
ScanProject (its error is assigned to the blank identifier): the ignore
matcher degrades to no gitignore rules and the scan proceeds; no
configuration error is ever propagated from loading the ignore file. -/
theorem gitignore_error_discarded (rootReadable : Bool) (root : List FSNode)
    (e : String) (options : ScanOptions) :
    ScanProject rootReadable root (Except.error e) options =
      scanCore none options rootReadable root := by
  cases h : options.NoGitIgnores <;>
    simp [ScanProject, h, Except.toOption]

theorem firstError_eq_none_iff (rs : List (Except String FileMetadata)) :
    firstError rs = none ↔ ∀ r ∈ rs, ∃ m, r = Except.ok m := by
  induction rs with
  | nil => simp [firstError]
  | cons r rest ih =>
    cases r with
    | error e => simp [firstError]
    | ok m => simp [firstError, ih]

theorem firstError_some_iff (rs : List (Except String FileMetadata)) :
    (∃ e, firstError rs = some e) ↔ ∃ r ∈ rs, ∃ e, r = Except.error e := by
  induction rs with
  | nil => simp [firstError]
  | cons r rest ih =>
    cases r with
    | error e => simp [firstError]
    | ok m => simp [firstError, ih]

theorem filter_erase_of_neg {α : Type} [BEq α] [LawfulBEq α] (p : α → Bool)
    (a : α) (l : List α) (h : p a = false) :
    (l.erase a).filter p = l.filter p := by
  induction l with
  | nil => simp
  | cons b bs ih =>
    by_cases hba : b = a
    · subst hba
      rw [List.erase_cons_head]
      simp [List.filter_cons, h]
    · rw [List.erase_cons_tail (by simp [hba])]
      simp only [List.filter_cons, ih]

/-- Counterexample to claim C4: a per-file I/O error (os.Open failing on
b.go) does not merely drop that file: the error flows out of the worker pool
and ScanProject returns it, aborting the whole scan. -/
theorem scan_perFile_error_counterexample :
    ScanProject true
        [FSNode.file "a.go" true inputGood,
         FSNode.file "b.go" true inputOpenFails]
        (Except.error "no gitignore") optsDefault
      = Except.error "open failed: b.go" := by
  rfl

/-- Claim C4 as amended: only a failure of the per-file d.Info stat call
drops that single file silently (the result is as if the file were absent);
an I/O error inside processFile — open, seek, read or hash — propagates out
of the result pool and makes ScanProject return an error, aborting the scan,
in addition to directory-walk-level failures; when every submitted file
processes without error the scan returns the processed records. -/
theorem scan_perFile_error_propagation (matcher : Option Matcher)
    (options : ScanOptions) (root : List FSNode)
    (files : List (String × FileInput))
    (hw : walkNodes matcher options "" root = Except.ok files) :
    ((∃ e, scanCore matcher options true root = Except.error e) ↔
      (∃ pf ∈ files, pf.2.statOk = true ∧
        ∃ e, processFile pf.1 pf.2 options = Except.error e))
  ∧ (∀ pf ∈ files, pf.2.statOk = false →
      collectResults files options = collectResults (files.erase pf) options)
  ∧ (firstError (collectResults files options) = none →
      scanCore matcher options true root =
        Except.ok ((okResults (collectResults files options)).filter
          (fun m => m.RelativePath != ""))) := by
  have hcore : scanCore matcher options true root =
      (match firstError (collectResults files options) with
       | some e => Except.error e
       | none =>
          Except.ok ((okResults (collectResults files options)).filter
            (fun m => m.RelativePath != ""))) := by
    simp [scanCore, hw]
  refine ⟨?_, ?_, ?_⟩
  · rw [hcore]
    cases hfe : firstError (collectResults files options) with
    | some e0 =>
      simp only [hfe]
      constructor
      · intro _
        have := firstError_some_iff (collectResults files options)
        rcases this.mp ⟨e0, hfe⟩ with ⟨r, hr, e1, hre⟩
        rcases (by simpa [collectResults] using hr :
            ∃ pf, (pf ∈ files ∧ pf.2.statOk = true) ∧
              processFile pf.1 pf.2 options = r) with ⟨pf, ⟨hpf, hstat⟩, hpr⟩
        exact ⟨pf, hpf, hstat, e1, by rw [hpr, hre]⟩
      · intro _
        exact ⟨e0, rfl⟩
    | none =>
      simp only [hfe]
      constructor
      · rintro ⟨e, he⟩
        exact absurd he (by simp)
      · rintro ⟨pf, hpf, hstat, e, hpe⟩
        exfalso
        have hall := (firstError_eq_none_iff _).mp hfe
        have hmem : processFile pf.1 pf.2 options ∈
            collectResults files options := by
          simp only [collectResults, List.mem_map, List.mem_filter]
          exact ⟨pf, ⟨hpf, hstat⟩, rfl⟩
        rcases hall _ hmem with ⟨m, hm⟩
        rw [hpe] at hm
        exact Except.noConfusion hm
  · intro pf hpf hstat
    simp only [collectResults]
    rw [filter_erase_of_neg (fun q => q.2.statOk) pf files hstat]
  · intro hfe
    rw [hcore, hfe]

/-- Witness for `scan_perFile_error_propagation`: a file whose stat call
fails contributes nothing — the submitted work list is the one with that
file erased. -/
theorem scan_perFile_error_propagation_witness :
    collectResults [("a.go", inputGood), ("c.go", inputStatFails)]
        optsDefault =
      collectResults
        ([("a.go", inputGood), ("c.go", inputStatFails)].erase
          ("c.go", inputStatFails)) optsDefault :=
  (scan_perFile_error_propagation none optsDefault
      [FSNode.file "a.go" true inputGood,
       FSNode.file "c.go" true inputStatFails]
      [("a.go", inputGood), ("c.go", inputStatFails)]
      (by rfl)).2.1
    ("c.go", inputStatFails) (by decide) (by decide)

/-- Counterexample to claim C8: profiles save is a command that needs a
project id, yet on a projects table without the path it fails with the
not-found lookup error instead of creating the row. -/
theorem profilesSave_missing_project_counterexample :
    profilesSave [] [] "/p" "default" "data"
      = Except.error "error finding project: sql: no rows in result set" := by
  rfl

/-- Claim C8 as amended: only the cache update command resolves its project
id through getOrCreateProject, which on first reference creates the row with
the not_scanned_yet sentinel timestamp and otherwise returns the existing id
untouched; the other commands that need a project id (profiles save among
them) use a bare lookup that aborts with a not-found error when no row
exists, creating nothing. -/
theorem getOrCreateProject_spec (tbl : List ProjectRow) (nextId : Int)
    (projectPath : String) :
    (findProjectId tbl projectPath = none →
      getOrCreateProject tbl nextId projectPath =
        (tbl ++ [{ id := nextId, path := projectPath,
                   lastScan := "not_scanned_yet" }], nextId))
  ∧ (∀ id, findProjectId tbl projectPath = some id →
      getOrCreateProject tbl nextId projectPath = (tbl, id))
  ∧ (∀ (profiles : ProfilesTable) (name data : String),
      findProjectId tbl projectPath = none →
      profilesSave tbl profiles projectPath name data =
        Except.error "error finding project: sql: no rows in result set") := by
  refine ⟨?_, ?_, ?_⟩
  · intro h
    simp [getOrCreateProject, h]
  · intro id h
    simp [getOrCreateProject, h]
  · intro profiles name data h
    simp [profilesSave, lookupProjectId, h]

/-- Witness for `getOrCreateProject_spec`: referencing a path absent from an
empty projects table creates the row with the never-scanned sentinel. -/
theorem getOrCreateProject_spec_witness :
    getOrCreateProject [] 7 "/p"
      = ([{ id := 7, path := "/p", lastScan := "not_scanned_yet" }], 7) :=
  (getOrCreateProject_spec [] 7 "/p").1 (by rfl)

/-! ### Association-list lookup lemmas for the refresh correctness proof -/

theorem lookup_cons_self {β : Type} (rest : List (String × β)) (p : String)
    (v : β) : ((p, v) :: rest).lookup p = some v := by
  simp [List.lookup]

theorem lookup_cons_ne {β : Type} (rest : List (String × β)) (k p : String)
    (v : β) (h : p ≠ k) : ((k, v) :: rest).lookup p = rest.lookup p := by
  have hkb : (p == k) = false := beq_eq_false_iff_ne.mpr h
  simp [List.lookup, hkb]

theorem lookup_eq_none_iff {β : Type} (tbl : List (String × β)) (p : String) :
    tbl.lookup p = none ↔ p ∉ tbl.map Prod.fst := by
  induction tbl with
  | nil => simp [List.lookup]
  | cons r rest ih =>
    obtain ⟨k, v⟩ := r
    by_cases hk : p = k
    · rw [← hk, lookup_cons_self]
      simp
    · rw [lookup_cons_ne rest k p v hk, List.map_cons]
      simp only [List.mem_cons, not_or]
      constructor
      · intro h
        exact ⟨hk, ih.mp h⟩
      · intro h
        exact ih.mpr h.2

theorem lookup_isSome_iff {β : Type} (tbl : List (String × β)) (p : String) :
    (tbl.lookup p).isSome = true ↔ p ∈ tbl.map Prod.fst := by
  constructor
  · intro h
    by_contra hmem
    rw [(lookup_eq_none_iff tbl p).mpr hmem] at h
    simp at h
  · intro hmem
    cases hl : tbl.lookup p with
    | none => exact absurd hmem ((lookup_eq_none_iff tbl p).mp hl)
    | some v => simp

theorem lookup_map_value {β γ : Type} (tbl : List (String × β)) (g : β → γ)
    (p : String) :
    (tbl.map (fun r => (r.1, g r.2))).lookup p = (tbl.lookup p).map g := by
  induction tbl with
  | nil => simp [List.lookup]
  | cons r rest ih =>
    obtain ⟨k, v⟩ := r
    by_cases hk : p = k
    · rw [← hk]
      show ((p, g v) :: rest.map (fun r => (r.1, g r.2))).lookup p =
        (((p, v) :: rest).lookup p).map g
      rw [lookup_cons_self, lookup_cons_self]
      rfl
    · show ((k, g v) :: rest.map (fun r => (r.1, g r.2))).lookup p =
        (((k, v) :: rest).lookup p).map g
      rw [lookup_cons_ne _ k p (g v) hk, lookup_cons_ne rest k p v hk, ih]

theorem lookup_append_some {β : Type} (t1 t2 : List (String × β))
    (p : String) (v : β) (h : t1.lookup p = some v) :
    (t1 ++ t2).lookup p = some v := by
  induction t1 with
  | nil => simp [List.lookup] at h
  | cons r rest ih =>
    obtain ⟨k, w⟩ := r
    by_cases hk : p = k
    · rw [← hk] at h ⊢
      rw [lookup_cons_self] at h
      rw [List.cons_append, lookup_cons_self]
      exact h
    · rw [lookup_cons_ne rest k p w hk] at h
      rw [List.cons_append, lookup_cons_ne _ k p w hk]
      exact ih h

theorem lookup_append_none {β : Type} (t1 t2 : List (String × β))
    (p : String) (h : t1.lookup p = none) :
    (t1 ++ t2).lookup p = t2.lookup p := by
  induction t1 with
  | nil => simp
  | cons r rest ih =>
    obtain ⟨k, w⟩ := r
    by_cases hk : p = k
    · rw [← hk, lookup_cons_self] at h
      exact Option.noConfusion h
    · rw [lookup_cons_ne rest k p w hk] at h
      rw [List.cons_append, lookup_cons_ne _ k p w hk]
      exact ih h

theorem lookup_filter_key {β : Type} (tbl : List (String × β))
    (pk : String → Bool) (p : String) :
    (tbl.filter (fun r => pk r.1)).lookup p =
      if pk p then tbl.lookup p else none := by
  induction tbl with
  | nil => simp [List.lookup]
  | cons r rest ih =>
    obtain ⟨k, v⟩ := r
    cases hpk : pk k with
    | true =>
      have hcons : ((k, v) :: rest).filter (fun r => pk r.1) =
          (k, v) :: rest.filter (fun r => pk r.1) := by
        simp [List.filter_cons, hpk]
      rw [hcons]
      by_cases hk : p = k
      · rw [← hk] at hpk ⊢
        rw [lookup_cons_self, lookup_cons_self, if_pos hpk]
      · rw [lookup_cons_ne _ k p v hk, lookup_cons_ne rest k p v hk, ih]
    | false =>
      have hcons : ((k, v) :: rest).filter (fun r => pk r.1) =
          rest.filter (fun r => pk r.1) := by
        simp [List.filter_cons, hpk]
      rw [hcons, ih]
      by_cases hk : p = k
      · rw [← hk] at hpk
        rw [if_neg (by simp [hpk]), if_neg (by simp [hpk])]
      · rw [lookup_cons_ne rest k p v hk]

theorem applyUpdate_lookup (tbl : FileTable) (f : FileMetadata) (p : String) :
    (applyUpdate tbl f).lookup p =
      (tbl.lookup p).map
        (fun r => if p = f.RelativePath then overwriteRow r f else r) := by
  induction tbl with
  | nil => simp [applyUpdate, List.lookup]
  | cons row rest ih =>
    obtain ⟨k, v⟩ := row
    by_cases hkey : k = f.RelativePath
    · have hmap : applyUpdate ((k, v) :: rest) f =
          (k, overwriteRow v f) :: applyUpdate rest f := by
        simp [applyUpdate, hkey]
      rw [hmap]
      by_cases hk : p = k
      · rw [← hk] at hkey ⊢
        rw [lookup_cons_self, lookup_cons_self]
        simp [hkey]
      · rw [lookup_cons_ne _ k p _ hk, lookup_cons_ne rest k p v hk, ih]
    · have hmap : applyUpdate ((k, v) :: rest) f =
          (k, v) :: applyUpdate rest f := by
        simp [applyUpdate, hkey]
      rw [hmap]
      by_cases hk : p = k
      · rw [← hk] at hkey ⊢
        rw [lookup_cons_self, lookup_cons_self]
        simp [hkey]
      · rw [lookup_cons_ne _ k p v hk, lookup_cons_ne rest k p v hk, ih]

theorem applyUpdates_lookup_notmem (tbl : FileTable)
    (us : List FileMetadata) (p : String)
    (h : ∀ u ∈ us, u.RelativePath ≠ p) :
    (applyUpdates tbl us).lookup p = tbl.lookup p := by
  induction us generalizing tbl with
  | nil => simp [applyUpdates]
  | cons u rest ih =>
    have hu : u.RelativePath ≠ p := h u (List.mem_cons_self u rest)
    have hrest : ∀ v ∈ rest, v.RelativePath ≠ p :=
      fun v hv => h v (List.mem_cons_of_mem u hv)
    show (applyUpdates (applyUpdate tbl u) rest).lookup p = tbl.lookup p
    rw [ih (applyUpdate tbl u) hrest, applyUpdate_lookup]
    have heq : (fun r => if p = u.RelativePath then overwriteRow r u else r) =
        (fun r : FileMetadata => r) := by
      funext r
      rw [if_neg (fun hpe => hu hpe.symm)]
    rw [heq]
    cases tbl.lookup p <;> rfl

theorem applyUpdates_lookup_mem (tbl : FileTable) (us : List FileMetadata)
    (u : FileMetadata) (p : String)
    (hnd : (us.map (fun f => f.RelativePath)).Nodup)
    (hu : u ∈ us) (hp : u.RelativePath = p) :
    (applyUpdates tbl us).lookup p =
      (tbl.lookup p).map (fun r => overwriteRow r u) := by
  induction us generalizing tbl with
  | nil => simp at hu
  | cons v rest ih =>
    rw [List.map_cons] at hnd
    have hnd1 := (List.nodup_cons.mp hnd).1
    have hnd2 := (List.nodup_cons.mp hnd).2
    rcases List.mem_cons.mp hu with hv | hrest
    · have hnotin : ∀ w ∈ rest, w.RelativePath ≠ p := by
        intro w hw hwp
        apply hnd1
        rw [← hv]
        exact List.mem_map.mpr ⟨w, hw, by rw [hwp, hp]⟩
      show (applyUpdates (applyUpdate tbl v) rest).lookup p = _
      rw [applyUpdates_lookup_notmem _ _ _ hnotin, applyUpdate_lookup, ← hv]
      have heq : (fun r => if p = u.RelativePath then overwriteRow r u else r)
          = (fun r => overwriteRow r u) := by
        funext r
        rw [if_pos hp.symm]
      rw [heq]
    · have hvp : v.RelativePath ≠ p := by
        intro hvpe
        apply hnd1
        rw [hvpe, ← hp]
        exact List.mem_map.mpr ⟨u, hrest, rfl⟩
      show (applyUpdates (applyUpdate tbl v) rest).lookup p = _
      rw [ih (applyUpdate tbl v) hnd2 hrest, applyUpdate_lookup]
      have heq : (fun r => if p = v.RelativePath then overwriteRow r v else r)
          = (fun r : FileMetadata => r) := by
        funext r
        rw [if_neg (fun hpe => hvp hpe.symm)]
      rw [heq]
      cases tbl.lookup p <;> rfl

theorem rows_keys (ins : List FileMetadata) :
    (ins.map rowOf).map Prod.fst = ins.map (fun f => f.RelativePath) := by
  simp [rowOf, List.map_map, Function.comp]

theorem rows_lookup_none (ins : List FileMetadata) (p : String)
    (h : p ∉ ins.map (fun f => f.RelativePath)) :
    (ins.map rowOf).lookup p = none := by
  rw [lookup_eq_none_iff, rows_keys]
  exact h

theorem rows_lookup_some (ins : List FileMetadata) (f : FileMetadata)
    (p : String) (hnd : (ins.map (fun g => g.RelativePath)).Nodup)
    (hf : f ∈ ins) (hp : f.RelativePath = p) :
    (ins.map rowOf).lookup p = some f := by
  induction ins with
  | nil => simp at hf
  | cons g rest ih =>
    rw [List.map_cons] at hnd
    have hnd1 := (List.nodup_cons.mp hnd).1
    have hnd2 := (List.nodup_cons.mp hnd).2
    rcases List.mem_cons.mp hf with hg | hrest
    · show (rowOf g :: rest.map rowOf).lookup p = some f
      rw [← hg]
      show ((f.RelativePath, f) :: rest.map rowOf).lookup p = some f
      rw [← hp, lookup_cons_self]
    · have hgp : g.RelativePath ≠ p := by
        intro hge
        apply hnd1
        rw [hge, ← hp]
        exact List.mem_map.mpr ⟨f, hrest, rfl⟩
      show ((g.RelativePath, g) :: rest.map rowOf).lookup p = some f
      rw [lookup_cons_ne _ _ p _ (fun hpe => hgp hpe.symm)]
      exact ih hnd2 hrest

theorem snapshot_lookup (tbl : FileTable) (p : String) :
    (snapshotOf tbl).lookup p =
      (tbl.lookup p).map
        (fun r => ({ ModTime := r.LastModTime, Hash := r.ContentHash } :
          DbFileInfo)) := by
  simp only [snapshotOf]
  exact lookup_map_value tbl
    (fun x => ({ ModTime := x.LastModTime, Hash := x.ContentHash } :
      DbFileInfo)) p

theorem snapshot_keys (tbl : FileTable) :
    (snapshotOf tbl).map Prod.fst = tbl.map Prod.fst := by
  simp [snapshotOf, List.map_map, Function.comp]

theorem reconcile_insert_mem (db : FileTable) (l : List FileMetadata)
    (f : FileMetadata) :
    f ∈ (reconcile (snapshotOf db) l).1 ↔
      f ∈ l ∧ db.lookup f.RelativePath = none := by
  have h1 : (reconcile (snapshotOf db) l).1 =
      l.filter (fun f => ((snapshotOf db).lookup f.RelativePath).isNone) :=
    rfl
  rw [h1, List.mem_filter, snapshot_lookup]
  simp [Option.isNone_iff_eq_none]

theorem reconcile_update_mem (db : FileTable) (l : List FileMetadata)
    (f : FileMetadata) :
    f ∈ (reconcile (snapshotOf db) l).2.1 ↔
      f ∈ l ∧ ∃ r, db.lookup f.RelativePath = some r ∧
        staleNe f { ModTime := r.LastModTime, Hash := r.ContentHash } =
          true := by
  have h1 : (reconcile (snapshotOf db) l).2.1 =
      l.filter (fun f =>
        match (snapshotOf db).lookup f.RelativePath with
        | none => false
        | some i => staleNe f i) := rfl
  rw [h1, List.mem_filter]
  constructor
  · rintro ⟨hf, hpred⟩
    refine ⟨hf, ?_⟩
    rw [snapshot_lookup] at hpred
    cases hdb : db.lookup f.RelativePath with
    | none =>
      rw [hdb] at hpred
      simp at hpred
    | some r =>
      rw [hdb] at hpred
      exact ⟨r, rfl, by simpa using hpred⟩
  · rintro ⟨hf, r, hdb, hstale⟩
    refine ⟨hf, ?_⟩
    rw [snapshot_lookup, hdb]
    simpa using hstale

theorem reconcile_delete_mem (db : FileTable) (l : List FileMetadata)
    (p : String) :
    p ∈ (reconcile (snapshotOf db) l).2.2 ↔
      p ∈ db.map Prod.fst ∧ ∀ f ∈ l, f.RelativePath ≠ p := by
  have h1 : (reconcile (snapshotOf db) l).2.2 =
      ((snapshotOf db).map Prod.fst).filter
        (fun p => l.all (fun f => f.RelativePath != p)) := rfl
  rw [h1, snapshot_keys, List.mem_filter]
  simp [List.all_eq_true]

theorem filter_keys_nodup (l : List FileMetadata) (q : FileMetadata → Bool)
    (hl : (l.map (fun f => f.RelativePath)).Nodup) :
    ((l.filter q).map (fun f => f.RelativePath)).Nodup :=
  ((List.filter_sublist l).map (fun f => f.RelativePath)).nodup hl

theorem key_unique (l : List FileMetadata)
    (hl : (l.map (fun f => f.RelativePath)).Nodup)
    {f g : FileMetadata} (hf : f ∈ l) (hg : g ∈ l)
    (h : f.RelativePath = g.RelativePath) : f = g :=
  List.inj_on_of_nodup_map hl hf hg h

theorem contains_iff_mem (l : List String) (p : String) :
    l.contains p = true ↔ p ∈ l := by
  simp [List.contains]

theorem applyChanges_nil (tbl : FileTable) :
    applyChanges tbl [] [] [] = tbl := by
  simp [applyChanges, applyInserts, applyUpdates, applyDeletes]

theorem applyChanges_lookup_not_scanned (db : FileTable)
    (l : List FileMetadata) (p : String)
    (hp : p ∉ l.map (fun f => f.RelativePath)) :
    (applyChanges db (reconcile (snapshotOf db) l).1
      (reconcile (snapshotOf db) l).2.1
      (reconcile (snapshotOf db) l).2.2).lookup p = none := by
  show (applyDeletes (applyUpdates
      (applyInserts db (reconcile (snapshotOf db) l).1)
      (reconcile (snapshotOf db) l).2.1)
      (reconcile (snapshotOf db) l).2.2).lookup p = none
  rw [show applyDeletes (applyUpdates
      (applyInserts db (reconcile (snapshotOf db) l).1)
      (reconcile (snapshotOf db) l).2.1)
      (reconcile (snapshotOf db) l).2.2 =
    (applyUpdates (applyInserts db (reconcile (snapshotOf db) l).1)
      (reconcile (snapshotOf db) l).2.1).filter
      (fun r => !(reconcile (snapshotOf db) l).2.2.contains r.1) from rfl]
  rw [lookup_filter_key _
    (fun k => !(reconcile (snapshotOf db) l).2.2.contains k)]
  cases hdbp : db.lookup p with
  | some r =>
    have hdel : p ∈ (reconcile (snapshotOf db) l).2.2 := by
      rw [reconcile_delete_mem]
      refine ⟨(lookup_isSome_iff db p).mp (by rw [hdbp]; rfl), ?_⟩
      intro f hf hfp
      exact hp (List.mem_map.mpr ⟨f, hf, hfp⟩)
    rw [if_neg (by
      simp only [Bool.not_eq_true, Bool.not_not]
      simp
      exact hdel)]
  | none =>
    have hnodel : p ∉ (reconcile (snapshotOf db) l).2.2 := by
      rw [reconcile_delete_mem]
      rintro ⟨hmem, -⟩
      exact (lookup_eq_none_iff db p).mp hdbp hmem
    rw [if_pos (by
      cases hc : (reconcile (snapshotOf db) l).2.2.contains p
      · rfl
      · exact absurd ((contains_iff_mem _ p).mp hc) hnodel)]
    rw [applyUpdates_lookup_notmem _ _ _ (by
      intro u hu hup
      rcases (reconcile_update_mem db l u).mp hu with ⟨hul, -⟩
      exact hp (List.mem_map.mpr ⟨u, hul, hup⟩))]
    rw [show applyInserts db (reconcile (snapshotOf db) l).1 =
      db ++ (reconcile (snapshotOf db) l).1.map rowOf from rfl]
    rw [lookup_append_none _ _ _ hdbp]
    apply rows_lookup_none
    intro hmem
    rcases List.mem_map.mp hmem with ⟨f, hf, hfp⟩
    rcases (reconcile_insert_mem db l f).mp hf with ⟨hfl, -⟩
    exact hp (List.mem_map.mpr ⟨f, hfl, hfp⟩)

theorem applyChanges_lookup_inserted (db : FileTable)
    (l : List FileMetadata) (f : FileMetadata)
    (hl : (l.map (fun g => g.RelativePath)).Nodup)
    (hf : f ∈ l) (hnone : db.lookup f.RelativePath = none) :
    (applyChanges db (reconcile (snapshotOf db) l).1
      (reconcile (snapshotOf db) l).2.1
      (reconcile (snapshotOf db) l).2.2).lookup f.RelativePath = some f := by
  have hnodel : f.RelativePath ∉ (reconcile (snapshotOf db) l).2.2 := by
    rw [reconcile_delete_mem]
    rintro ⟨hmem, -⟩
    exact (lookup_eq_none_iff db f.RelativePath).mp hnone hmem
  show (applyDeletes (applyUpdates
      (applyInserts db (reconcile (snapshotOf db) l).1)
      (reconcile (snapshotOf db) l).2.1)
      (reconcile (snapshotOf db) l).2.2).lookup f.RelativePath = some f
  rw [show applyDeletes (applyUpdates
      (applyInserts db (reconcile (snapshotOf db) l).1)
      (reconcile (snapshotOf db) l).2.1)
      (reconcile (snapshotOf db) l).2.2 =
    (applyUpdates (applyInserts db (reconcile (snapshotOf db) l).1)
      (reconcile (snapshotOf db) l).2.1).filter
      (fun r => !(reconcile (snapshotOf db) l).2.2.contains r.1) from rfl]
  rw [lookup_filter_key _
    (fun k => !(reconcile (snapshotOf db) l).2.2.contains k)]
  rw [if_pos (by
    cases hc : (reconcile (snapshotOf db) l).2.2.contains f.RelativePath
    · rfl
    · exact absurd ((contains_iff_mem _ _).mp hc) hnodel)]
  rw [applyUpdates_lookup_notmem _ _ _ (by
    intro u hu hup
    rcases (reconcile_update_mem db l u).mp hu with ⟨-, r, hsome, -⟩
    rw [hup, hnone] at hsome
    exact Option.noConfusion hsome)]
  rw [show applyInserts db (reconcile (snapshotOf db) l).1 =
    db ++ (reconcile (snapshotOf db) l).1.map rowOf from rfl]
  rw [lookup_append_none _ _ _ hnone]
  exact rows_lookup_some _ f _
    (filter_keys_nodup l _ hl)
    ((reconcile_insert_mem db l f).mpr ⟨hf, hnone⟩) rfl

theorem applyChanges_lookup_existing (db : FileTable)
    (l : List FileMetadata) (f : FileMetadata) (r : FileMetadata)
    (hl : (l.map (fun g => g.RelativePath)).Nodup)
    (hf : f ∈ l) (hsome : db.lookup f.RelativePath = some r) :
    (applyChanges db (reconcile (snapshotOf db) l).1
      (reconcile (snapshotOf db) l).2.1
      (reconcile (snapshotOf db) l).2.2).lookup f.RelativePath =
      some (if staleNe f { ModTime := r.LastModTime, Hash := r.ContentHash }
        then overwriteRow r f else r) := by
  have hnodel : f.RelativePath ∉ (reconcile (snapshotOf db) l).2.2 := by
    rw [reconcile_delete_mem]
    rintro ⟨-, hall⟩
    exact hall f hf rfl
  show (applyDeletes (applyUpdates
      (applyInserts db (reconcile (snapshotOf db) l).1)
      (reconcile (snapshotOf db) l).2.1)
      (reconcile (snapshotOf db) l).2.2).lookup f.RelativePath = _
  rw [show applyDeletes (applyUpdates
      (applyInserts db (reconcile (snapshotOf db) l).1)
      (reconcile (snapshotOf db) l).2.1)
      (reconcile (snapshotOf db) l).2.2 =
    (applyUpdates (applyInserts db (reconcile (snapshotOf db) l).1)
      (reconcile (snapshotOf db) l).2.1).filter
      (fun r => !(reconcile (snapshotOf db) l).2.2.contains r.1) from rfl]
  rw [lookup_filter_key _
    (fun k => !(reconcile (snapshotOf db) l).2.2.contains k)]
  rw [if_pos (by
    cases hc : (reconcile (snapshotOf db) l).2.2.contains f.RelativePath
    · rfl
    · exact absurd ((contains_iff_mem _ _).mp hc) hnodel)]
  have happ : (applyInserts db (reconcile (snapshotOf db) l).1).lookup
      f.RelativePath = some r := by
    rw [show applyInserts db (reconcile (snapshotOf db) l).1 =
      db ++ (reconcile (snapshotOf db) l).1.map rowOf from rfl]
    exact lookup_append_some _ _ _ r hsome
  cases hs : staleNe f { ModTime := r.LastModTime, Hash := r.ContentHash }
  · rw [applyUpdates_lookup_notmem _ _ _ (by
      intro u hu hup
      rcases (reconcile_update_mem db l u).mp hu with ⟨hul, r2, hsome2, hst2⟩
      have huf : u = f := key_unique l hl hul hf hup
      subst huf
      rw [hsome] at hsome2
      rw [Option.some.injEq] at hsome2
      subst hsome2
      rw [hst2] at hs
      exact Bool.noConfusion hs)]
    rw [happ, if_neg (by simp [hs])]
  · have hfu : f ∈ (reconcile (snapshotOf db) l).2.1 :=
      (reconcile_update_mem db l f).mpr ⟨hf, r, hsome, hs⟩
    rw [applyUpdates_lookup_mem _ ((reconcile (snapshotOf db) l).2.1) f
      f.RelativePath (filter_keys_nodup l _ hl) hfu rfl]
    rw [happ, if_pos (by simp [hs])]
    rfl

theorem filter_length_eq_card (l : List FileMetadata) (q : FileMetadata → Bool)
    (hl : (l.map (fun f => f.RelativePath)).Nodup) :
    (l.filter q).length =
      (((l.filter q).map (fun f => f.RelativePath)).toFinset).card := by
  rw [List.toFinset_card_of_nodup (filter_keys_nodup l q hl), List.length_map]

theorem insert_count (db : FileTable) (l : List FileMetadata)
    (hl : (l.map (fun f => f.RelativePath)).Nodup) :
    (reconcile (snapshotOf db) l).1.length =
      (scanKeys l \ tableKeys db).card := by
  have h1 : (reconcile (snapshotOf db) l).1 =
      l.filter (fun f => ((snapshotOf db).lookup f.RelativePath).isNone) :=
    rfl
  rw [h1, filter_length_eq_card l _ hl]
  congr 1
  ext p
  simp only [List.mem_toFinset, Finset.mem_sdiff, scanKeys, tableKeys]
  constructor
  · intro hmem
    rcases List.mem_map.mp hmem with ⟨f, hfmem, hkey⟩
    rcases List.mem_filter.mp hfmem with ⟨hf, hq⟩
    have hnone : db.lookup p = none := by
      rw [← hkey]
      rw [snapshot_lookup] at hq
      cases hdbx : db.lookup f.RelativePath with
      | none => rfl
      | some x =>
        rw [hdbx] at hq
        simp at hq
    exact ⟨List.mem_map.mpr ⟨f, hf, hkey⟩, (lookup_eq_none_iff db p).mp hnone⟩
  · rintro ⟨hscan, hnot⟩
    rcases List.mem_map.mp hscan with ⟨f, hf, hkey⟩
    refine List.mem_map.mpr ⟨f, List.mem_filter.mpr ⟨hf, ?_⟩, hkey⟩
    rw [snapshot_lookup]
    have hnone : db.lookup f.RelativePath = none := by
      rw [hkey]
      exact (lookup_eq_none_iff db p).mpr hnot
    rw [hnone]
    rfl

theorem delete_count (db : FileTable) (l : List FileMetadata)
    (hdb : (db.map Prod.fst).Nodup) :
    (reconcile (snapshotOf db) l).2.2.length =
      (tableKeys db \ scanKeys l).card := by
  have h1 : (reconcile (snapshotOf db) l).2.2 =
      (db.map Prod.fst).filter
        (fun p => l.all (fun f => f.RelativePath != p)) := by
    show ((snapshotOf db).map Prod.fst).filter _ = _
    rw [snapshot_keys]
  rw [h1, ← List.toFinset_card_of_nodup (List.Nodup.filter _ hdb)]
  congr 1
  ext p
  simp only [List.mem_toFinset, Finset.mem_sdiff, tableKeys, scanKeys]
  constructor
  · intro hmem
    rcases List.mem_filter.mp hmem with ⟨hkeys, hall⟩
    refine ⟨hkeys, ?_⟩
    intro hscan
    rcases List.mem_map.mp hscan with ⟨f, hf, hkey⟩
    have hne := List.all_eq_true.mp hall f hf
    exact absurd hkey (by simpa using hne)
  · rintro ⟨hkeys, hnot⟩
    refine List.mem_filter.mpr ⟨hkeys, ?_⟩
    rw [List.all_eq_true]
    intro f hf
    simp only [bne_iff_ne, ne_eq]
    intro hkey
    exact hnot (List.mem_map.mpr ⟨f, hf, hkey⟩)

theorem update_count (db : FileTable) (l : List FileMetadata)
    (hl : (l.map (fun f => f.RelativePath)).Nodup) :
    (reconcile (snapshotOf db) l).2.1.length = (modifiedKeys db l).card := by
  have h1 : (reconcile (snapshotOf db) l).2.1 =
      l.filter (fun f =>
        match (snapshotOf db).lookup f.RelativePath with
        | none => false
        | some i => staleNe f i) := rfl
  rw [h1, filter_length_eq_card l _ hl]
  congr 1
  ext p
  simp only [List.mem_toFinset, modifiedKeys, Finset.mem_filter,
    Finset.mem_inter, scanKeys, tableKeys]
  constructor
  · intro hmem
    rcases List.mem_map.mp hmem with ⟨f, hfmem, hkey⟩
    rcases List.mem_filter.mp hfmem with ⟨hf, hq⟩
    have hq2 : (match (snapshotOf db).lookup p with
        | none => false
        | some i => staleNe f i) = true := by
      rw [← hkey]
      exact hq
    cases hsl : (snapshotOf db).lookup p with
    | none =>
      rw [hsl] at hq2
      exact Bool.noConfusion hq2
    | some i =>
      rw [hsl] at hq2
      have htbl : p ∈ db.map Prod.fst := by
        rw [← snapshot_keys]
        exact (lookup_isSome_iff (snapshotOf db) p).mp (by rw [hsl]; rfl)
      refine ⟨⟨List.mem_map.mpr ⟨f, hf, hkey⟩, htbl⟩, ?_⟩
      refine List.any_eq_true.mpr ⟨f, hf, ?_⟩
      rw [Bool.and_eq_true]
      exact ⟨beq_iff_eq.mpr hkey, hq2⟩
  · rintro ⟨⟨hscan, htbl⟩, hany⟩
    rcases List.any_eq_true.mp hany with ⟨f, hf, hpred⟩
    rw [Bool.and_eq_true] at hpred
    obtain ⟨hbeq, hmatch⟩ := hpred
    have hkey : f.RelativePath = p := beq_iff_eq.mp hbeq
    refine List.mem_map.mpr ⟨f, List.mem_filter.mpr ⟨hf, ?_⟩, hkey⟩
    rw [hkey]
    cases hsl : (snapshotOf db).lookup p with
    | none =>
      rw [hsl] at hmatch
      exact hmatch
    | some i =>
      rw [hsl] at hmatch
      exact hmatch

theorem runIncremental_noFaults (st : DBState) (l : List FileMetadata)
    (now : String) :
    (runIncrementalScan st l TxFaults.none now).1.files =
      applyChanges st.files (reconcile (snapshotOf st.files) l).1
        (reconcile (snapshotOf st.files) l).2.1
        (reconcile (snapshotOf st.files) l).2.2
  ∧ (((runIncrementalScan st l TxFaults.none now).2 = ScanOutcome.upToDate ∧
        (reconcile (snapshotOf st.files) l).1 = [] ∧
        (reconcile (snapshotOf st.files) l).2.1 = [] ∧
        (reconcile (snapshotOf st.files) l).2.2 = [])
      ∨ (runIncrementalScan st l TxFaults.none now).2 =
          ScanOutcome.updated (reconcile (snapshotOf st.files) l).1.length
            (reconcile (snapshotOf st.files) l).2.1.length
            (reconcile (snapshotOf st.files) l).2.2.length) := by
  have hred : runIncrementalScan st l TxFaults.none now =
      (if ((reconcile (snapshotOf st.files) l).1.isEmpty &&
            (reconcile (snapshotOf st.files) l).2.1.isEmpty &&
            (reconcile (snapshotOf st.files) l).2.2.isEmpty)
        then (st, ScanOutcome.upToDate)
        else ({ files := applyChanges st.files
                  (reconcile (snapshotOf st.files) l).1
                  (reconcile (snapshotOf st.files) l).2.1
                  (reconcile (snapshotOf st.files) l).2.2,
                lastScan := now },
          ScanOutcome.updated (reconcile (snapshotOf st.files) l).1.length
            (reconcile (snapshotOf st.files) l).2.1.length
            (reconcile (snapshotOf st.files) l).2.2.length)) := by
    simp [runIncrementalScan, TxFaults.none, applyChanges]
  rw [hred]
  cases hcond : ((reconcile (snapshotOf st.files) l).1.isEmpty &&
      (reconcile (snapshotOf st.files) l).2.1.isEmpty &&
      (reconcile (snapshotOf st.files) l).2.2.isEmpty) with
  | true =>
    rw [Bool.and_eq_true, Bool.and_eq_true] at hcond
    obtain ⟨⟨h1, h2⟩, h3⟩ := hcond
    rw [List.isEmpty_iff] at h1 h2 h3
    rw [if_pos rfl]
    exact ⟨by rw [h1, h2, h3, applyChanges_nil], Or.inl ⟨rfl, h1, h2, h3⟩⟩
  | false =>
    rw [if_neg (by simp)]
    exact ⟨rfl, Or.inr rfl⟩

/-- Claim C1: after a fault-free incremental refresh, the persisted
FileRecord set matches the live scan exactly at the level the claim
describes: a relative path is stored iff it was scanned; every scanned file
is stored with its scanned modification time and content hash (a newly
scanned path is stored as the full scanned record); and the outcome is
either the up-to-date short circuit or the report whose files_added,
files_modified and files_deleted counts are the cardinalities of the path
set differences (added and deleted) and of the common paths whose staleness
key changed (modified); on the up-to-date outcome all three of those
cardinalities are zero. -/
theorem incremental_refresh_matches_live_scan (st : DBState)
    (l : List FileMetadata) (now : String)
    (hdb : (st.files.map Prod.fst).Nodup)
    (hl : (l.map (fun f => f.RelativePath)).Nodup) :
    (∀ p, (((runIncrementalScan st l TxFaults.none now).1.files.lookup
        p).isSome = true ↔ p ∈ l.map (fun f => f.RelativePath)))
  ∧ (∀ f ∈ l, ∃ r,
      (runIncrementalScan st l TxFaults.none now).1.files.lookup
          f.RelativePath = some r ∧
        r.LastModTime = f.LastModTime ∧ r.ContentHash = f.ContentHash)
  ∧ (∀ f ∈ l, st.files.lookup f.RelativePath = none →
      (runIncrementalScan st l TxFaults.none now).1.files.lookup
        f.RelativePath = some f)
  ∧ ((runIncrementalScan st l TxFaults.none now).2 = ScanOutcome.upToDate
      ∨ (runIncrementalScan st l TxFaults.none now).2 =
          ScanOutcome.updated ((scanKeys l \ tableKeys st.files).card)
            ((modifiedKeys st.files l).card)
            ((tableKeys st.files \ scanKeys l).card))
  ∧ ((runIncrementalScan st l TxFaults.none now).2 = ScanOutcome.upToDate →
      (scanKeys l \ tableKeys st.files).card = 0 ∧
      (modifiedKeys st.files l).card = 0 ∧
      (tableKeys st.files \ scanKeys l).card = 0) := by
  obtain ⟨hfiles, houtcome⟩ := runIncremental_noFaults st l now
  refine ⟨?_, ?_, ?_, ?_, ?_⟩
  · intro p
    rw [hfiles]
    constructor
    · intro hsome
      by_contra hnot
      rw [applyChanges_lookup_not_scanned st.files l p hnot] at hsome
      simp at hsome
    · intro hmem
      rcases List.mem_map.mp hmem with ⟨f, hf, hkey⟩
      cases hdbp : st.files.lookup p with
      | none =>
        rw [← hkey] at hdbp ⊢
        rw [applyChanges_lookup_inserted st.files l f hl hf hdbp]
        rfl
      | some r =>
        rw [← hkey] at hdbp ⊢
        rw [applyChanges_lookup_existing st.files l f r hl hf hdbp]
        rfl
  · intro f hf
    rw [hfiles]
    cases hdbp : st.files.lookup f.RelativePath with
    | none =>
      exact ⟨f, applyChanges_lookup_inserted st.files l f hl hf hdbp,
        rfl, rfl⟩
    | some r =>
      rw [applyChanges_lookup_existing st.files l f r hl hf hdbp]
      cases hs : staleNe f ⟨r.LastModTime, r.ContentHash⟩ with
      | true =>
        refine ⟨overwriteRow r f, by simp, rfl, rfl⟩
      | false =>
        have hboth : f.LastModTime = r.LastModTime ∧
            f.ContentHash = r.ContentHash := by
          have := hs
          simp only [staleNe, Bool.or_eq_false_iff, bne_eq_false_iff_eq]
            at this
          exact this
        exact ⟨r, by simp, hboth.1.symm, hboth.2.symm⟩
  · intro f hf hnone
    rw [hfiles]
    exact applyChanges_lookup_inserted st.files l f hl hf hnone
  · rcases houtcome with ⟨hup, -⟩ | hupd
    · exact Or.inl hup
    · refine Or.inr ?_
      rw [hupd, insert_count st.files l hl, update_count st.files l hl,
        delete_count st.files l hdb]
  · intro hup
    rcases houtcome with ⟨-, hins, hupdn, hdel⟩ | hupd
    · refine ⟨?_, ?_, ?_⟩
      · rw [← insert_count st.files l hl, hins]
        rfl
      · rw [← update_count st.files l hl, hupdn]
        rfl
      · rw [← delete_count st.files l hdb, hdel]
        rfl
    · rw [hup] at hupd
      exact ScanOutcome.noConfusion hupd

/-- Witness for `incremental_refresh_matches_live_scan`: one stored file
touched (new modification time), one new file and one deleted file: after
the refresh the stored paths are exactly the two scanned ones and the
reported counts are one added, one modified, one deleted. -/
theorem incremental_refresh_matches_live_scan_witness :
    ((runIncrementalScan
        { files := [("a.go", mkMeta "a.go" 1 "h1"),
                    ("old.go", mkMeta "old.go" 1 "h0")], lastScan := "T1" }
        [mkMeta "a.go" 2 "h1", mkMeta "new.go" 1 "h2"]
        TxFaults.none "T2").1.files.lookup "new.go").isSome = true ∧
    (runIncrementalScan
        { files := [("a.go", mkMeta "a.go" 1 "h1"),
                    ("old.go", mkMeta "old.go" 1 "h0")], lastScan := "T1" }
        [mkMeta "a.go" 2 "h1", mkMeta "new.go" 1 "h2"]
        TxFaults.none "T2").2 = ScanOutcome.updated 1 1 1 := by
  have h := incremental_refresh_matches_live_scan
    { files := [("a.go", mkMeta "a.go" 1 "h1"),
                ("old.go", mkMeta "old.go" 1 "h0")], lastScan := "T1" }
    [mkMeta "a.go" 2 "h1", mkMeta "new.go" 1 "h2"] "T2"
    (by decide) (by decide)
  refine ⟨(h.1 "new.go").mpr (by decide), ?_⟩
  rcases h.2.2.2.1 with hup | hcount
  · exact absurd hup (by decide)
  · rw [hcount]
    have : ((scanKeys [mkMeta "a.go" 2 "h1", mkMeta "new.go" 1 "h2"] \
        tableKeys [("a.go", mkMeta "a.go" 1 "h1"),
          ("old.go", mkMeta "old.go" 1 "h0")]).card = 1 ∧
      (modifiedKeys [("a.go", mkMeta "a.go" 1 "h1"),
          ("old.go", mkMeta "old.go" 1 "h0")]
        [mkMeta "a.go" 2 "h1", mkMeta "new.go" 1 "h2"]).card = 1 ∧
      (tableKeys [("a.go", mkMeta "a.go" 1 "h1"),
          ("old.go", mkMeta "old.go" 1 "h0")] \
        scanKeys [mkMeta "a.go" 2 "h1", mkMeta "new.go" 1 "h2"]).card = 1)
        := by decide
    rw [this.1, this.2.1, this.2.2]

end CPC
